import Mathlib

/-!
Shallow embedding of the payments ledger engine from src/src/engine.rs.

The Rust code keeps two BTreeMaps: accounts (ClientId to Account) and
deposits (TransactionId to Deposit).  Here a map is an association list
whose lookup returns the first binding of the key and whose insert
replaces the first binding of the key, or appends when the key is
absent.  Since the engine only ever inserts a key it just looked up (or
appends a fresh key), this models BTreeMap behaviour exactly.  The
rust_decimal Decimal type (exact decimal arithmetic with plus, minus and
order) is modelled as the rationals.
-/

abbrev ClientId := Nat

abbrev TransactionId := Nat

/-- The error enum of engine.rs, one constructor per Rust variant, with the
same payload fields. -/
inductive Error where
  | AlreadyDisputed (tx : TransactionId)
  | ClientMismatch (tx : TransactionId) (expected found : ClientId)
  | DuplicateTransactionId (tx : TransactionId)
  | InsufficientFunds (client : ClientId) (available requested : ℚ)
  | Locked (client : ClientId)
  | NotDisputed (tx : TransactionId)
  | TransactionNotFound (tx : TransactionId)
deriving DecidableEq, Repr

/-- The DepositState enum from engine.rs. -/
inductive DepositState where
  | Ok
  | Dispute
  | Chargeback
deriving DecidableEq, Repr

/-- The Deposit record from engine.rs. -/
structure Deposit where
  client : ClientId
  amount : ℚ
  state : DepositState
deriving DecidableEq, Repr

/-- The Account struct from engine.rs. -/
structure Account where
  total : ℚ
  held : ℚ
  locked : Bool
deriving DecidableEq, Repr

/-- Account.available from engine.rs. -/
def Account.available (a : Account) : ℚ :=
  a.total - a.held

/-- The Default impl for Account from engine.rs. -/
def Account.default : Account :=
  { total := 0, held := 0, locked := false }

/-- Lookup in an association list: the value of the first binding of the
key, as BTreeMap get. -/
def getKV {α : Type} (k : Nat) : List (Nat × α) → Option α
  | [] => none
  | (k1, v) :: rest => if k1 = k then some v else getKV k rest

/-- Insert into an association list: replace the first binding of the key,
or append when absent, as BTreeMap insert. -/
def setKV {α : Type} (k : Nat) (v : α) : List (Nat × α) → List (Nat × α)
  | [] => [(k, v)]
  | (k1, v1) :: rest => if k1 = k then (k, v) :: rest else (k1, v1) :: setKV k v rest

/-- The accounts.entry(client).or_default() step: make sure the client has
an account, inserting the default account when absent. -/
def orDefault (c : ClientId) (l : List (ClientId × Account)) : List (ClientId × Account) :=
  match getKV c l with
  | some _ => l
  | none => setKV c Account.default l

/-- The Engine struct from engine.rs: the accounts map and the deposits
map. -/
structure Engine where
  accounts : List (ClientId × Account)
  deposits : List (TransactionId × Deposit)
deriving DecidableEq, Repr

/-- Engine.new from engine.rs. -/
def Engine.new : Engine :=
  { accounts := [], deposits := [] }

/-- Engine.deposit from engine.rs.  Returns the engine after the call
(the Rust method mutates self in place) together with the error, if any. -/
def Engine.deposit (e : Engine) (client : ClientId) (tx : TransactionId) (amount : ℚ) :
    Engine × Option Error :=
  let accounts := orDefault client e.accounts
  let account := (getKV client accounts).getD Account.default
  let e1 : Engine := { e with accounts := accounts }
  if account.locked then
    (e1, some (Error.Locked client))
  else
    match getKV tx e1.deposits with
    | some _ => (e1, some (Error.DuplicateTransactionId tx))
    | none =>
      let e2 : Engine :=
        { e1 with deposits := setKV tx ⟨client, amount, DepositState.Ok⟩ e1.deposits }
      let newAccounts := setKV client { account with total := account.total + amount } e2.accounts
      ({ e2 with accounts := newAccounts }, none)

/-- Engine.withdraw from engine.rs.  The transaction id parameter is unused
in the source, and is unused here. -/
def Engine.withdraw (e : Engine) (client : ClientId) (_tx : TransactionId) (amount : ℚ) :
    Engine × Option Error :=
  let accounts := orDefault client e.accounts
  let account := (getKV client accounts).getD Account.default
  let e1 : Engine := { e with accounts := accounts }
  if account.locked then
    (e1, some (Error.Locked client))
  else if account.available < amount then
    (e1, some (Error.InsufficientFunds client account.available amount))
  else
    let newAccounts := setKV client { account with total := account.total - amount } e1.accounts
    ({ e1 with accounts := newAccounts }, none)

/-- Engine.dispute from engine.rs. -/
def Engine.dispute (e : Engine) (client : ClientId) (tx : TransactionId) :
    Engine × Option Error :=
  let accounts := orDefault client e.accounts
  let account := (getKV client accounts).getD Account.default
  let e1 : Engine := { e with accounts := accounts }
  match getKV tx e1.deposits with
  | none => (e1, some (Error.TransactionNotFound tx))
  | some deposit =>
    if deposit.client ≠ client then
      (e1, some (Error.ClientMismatch tx client deposit.client))
    else if deposit.state ≠ DepositState.Ok then
      (e1, some (Error.AlreadyDisputed tx))
    else
      let e2 : Engine :=
        { e1 with deposits := setKV tx { deposit with state := DepositState.Dispute } e1.deposits }
      let newAccounts := setKV client { account with held := account.held + deposit.amount } e2.accounts
      ({ e2 with accounts := newAccounts }, none)

/-- Engine.resolve from engine.rs. -/
def Engine.resolve (e : Engine) (client : ClientId) (tx : TransactionId) :
    Engine × Option Error :=
  let accounts := orDefault client e.accounts
  let account := (getKV client accounts).getD Account.default
  let e1 : Engine := { e with accounts := accounts }
  match getKV tx e1.deposits with
  | none => (e1, some (Error.TransactionNotFound tx))
  | some deposit =>
    if deposit.client ≠ client then
      (e1, some (Error.ClientMismatch tx client deposit.client))
    else if deposit.state ≠ DepositState.Dispute then
      (e1, some (Error.NotDisputed tx))
    else
      let e2 : Engine :=
        { e1 with deposits := setKV tx { deposit with state := DepositState.Ok } e1.deposits }
      let newAccounts := setKV client { account with held := account.held - deposit.amount } e2.accounts
      ({ e2 with accounts := newAccounts }, none)

/-- Engine.chargeback from engine.rs. -/
def Engine.chargeback (e : Engine) (client : ClientId) (tx : TransactionId) :
    Engine × Option Error :=
  let accounts := orDefault client e.accounts
  let account := (getKV client accounts).getD Account.default
  let e1 : Engine := { e with accounts := accounts }
  match getKV tx e1.deposits with
  | none => (e1, some (Error.TransactionNotFound tx))
  | some deposit =>
    if deposit.client ≠ client then
      (e1, some (Error.ClientMismatch tx client deposit.client))
    else if deposit.state ≠ DepositState.Dispute then
      (e1, some (Error.NotDisputed tx))
    else
      let e2 : Engine :=
        { e1 with deposits := setKV tx { deposit with state := DepositState.Chargeback } e1.deposits }
      let newAccount : Account :=
        { account with
            held := account.held - deposit.amount,
            total := account.total - deposit.amount,
            locked := true }
      let newAccounts := setKV client newAccount e2.accounts
      ({ e2 with accounts := newAccounts }, none)

/-- One decoded transaction operation, as fed to the engine by main.rs. -/
inductive Op where
  | deposit (client : ClientId) (tx : TransactionId) (amount : ℚ)
  | withdraw (client : ClientId) (tx : TransactionId) (amount : ℚ)
  | dispute (client : ClientId) (tx : TransactionId)
  | resolve (client : ClientId) (tx : TransactionId)
  | chargeback (client : ClientId) (tx : TransactionId)
deriving DecidableEq, Repr

/-- The client argument of an operation. -/
def Op.client : Op → ClientId
  | .deposit c _ _ => c
  | .withdraw c _ _ => c
  | .dispute c _ => c
  | .resolve c _ => c
  | .chargeback c _ => c

/-- Dispatch one operation to the corresponding engine method. -/
def Engine.apply (e : Engine) : Op → Engine × Option Error
  | .deposit c t a => e.deposit c t a
  | .withdraw c t a => e.withdraw c t a
  | .dispute c t => e.dispute c t
  | .resolve c t => e.resolve c t
  | .chargeback c t => e.chargeback c t

/-- Run a sequence of operations against a fresh engine, keeping the
mutated state after every call, successful or not, as main.rs does when it
continues past non-fatal errors. -/
def Engine.runOps (ops : List Op) : Engine :=
  ops.foldl (fun e op => (e.apply op).1) Engine.new

/-- The engine after the accounts.entry(client).or_default() step alone:
the lazy creation of the account that happens in every method before any
check, and the only mutation a failing call leaves behind. -/
def Engine.touch (e : Engine) (c : ClientId) : Engine :=
  { e with accounts := orDefault c e.accounts }

/-- The account of a client as the methods see it after or_default: the
stored account, or the default account when the client has none yet. -/
def Engine.acct (e : Engine) (c : ClientId) : Account :=
  (getKV c e.accounts).getD Account.default

/-- The held field of the account of a client, zero when the client has no
account (the value its account would get on creation). -/
def Engine.heldOf (e : Engine) (c : ClientId) : ℚ :=
  (e.acct c).held

/-- The total field of the account of a client, zero when absent. -/
def Engine.totalOf (e : Engine) (c : ClientId) : ℚ :=
  (e.acct c).total

/-- The locked field of the account of a client, false when absent. -/
def Engine.lockedOf (e : Engine) (c : ClientId) : Bool :=
  (e.acct c).locked

/-- The contribution of one deposit record to the disputed sum of a
client: its amount when it is owned by the client and currently in the
Dispute state, zero otherwise. -/
def contrib (c : ClientId) (d : Deposit) : ℚ :=
  if d.client = c ∧ d.state = DepositState.Dispute then d.amount else 0

/-- The sum of the amounts of all deposit records owned by a client whose
state is currently Dispute. -/
def disputedSum (c : ClientId) : List (TransactionId × Deposit) → ℚ
  | [] => 0
  | (_, d) :: rest => contrib c d + disputedSum c rest

/-- Does the operation deposit under this transaction id? -/
def Op.isDepositTo (t : TransactionId) : Op → Bool
  | .deposit _ t1 _ => t1 == t
  | _ => false

/-- The invariant of claim C1: for every client, the held amount equals the
sum of the amounts of the deposits of that client currently in Dispute. -/
def Engine.Inv (e : Engine) : Prop :=
  ∀ c, e.heldOf c = disputedSum c e.deposits

theorem getKV_setKV_self {α : Type} (k : Nat) (v : α) (l : List (Nat × α)) :
    getKV k (setKV k v l) = some v := by
  induction l with
  | nil => simp [getKV, setKV]
  | cons hd tl ih =>
    obtain ⟨k1, v1⟩ := hd
    by_cases h : k1 = k
    · simp [getKV, setKV, h]
    · simp [getKV, setKV, h, ih]

theorem getKV_setKV_ne {α : Type} (k1 k : Nat) (v : α) (l : List (Nat × α)) (h : k1 ≠ k) :
    getKV k1 (setKV k v l) = getKV k1 l := by
  have hnot : ¬ k = k1 := fun h3 => h h3.symm
  induction l with
  | nil => simp [getKV, setKV, hnot]
  | cons hd tl ih =>
    obtain ⟨k2, v2⟩ := hd
    by_cases h2 : k2 = k
    · subst h2
      simp [getKV, setKV, hnot]
    · simp only [setKV, if_neg h2, getKV]
      by_cases h3 : k2 = k1
      · simp [h3]
      · simp [h3, ih]

theorem getKV_orDefault_self (c : ClientId) (l : List (ClientId × Account)) :
    getKV c (orDefault c l) = some ((getKV c l).getD Account.default) := by
  unfold orDefault
  cases h : getKV c l with
  | some a => simp [h]
  | none => simp [getKV_setKV_self]

theorem getKV_orDefault_ne (c1 c : ClientId) (l : List (ClientId × Account)) (h : c1 ≠ c) :
    getKV c1 (orDefault c l) = getKV c1 l := by
  unfold orDefault
  cases h2 : getKV c l with
  | some a => rfl
  | none => exact getKV_setKV_ne c1 c Account.default l h

theorem acct_orDefault (e : Engine) (c : ClientId) :
    (getKV c (orDefault c e.accounts)).getD Account.default = e.acct c := by
  rw [getKV_orDefault_self]
  rfl

theorem touch_acct (e : Engine) (c0 c : ClientId) : (e.touch c0).acct c = e.acct c := by
  unfold Engine.touch Engine.acct
  by_cases h : c = c0
  · subst h
    simp [getKV_orDefault_self]
  · simp [getKV_orDefault_ne c c0 e.accounts h]

theorem touch_deposits (e : Engine) (c : ClientId) : (e.touch c).deposits = e.deposits := rfl

theorem contrib_of_ne_client (c : ClientId) (d : Deposit) (h : d.client ≠ c) :
    contrib c d = 0 := by
  simp [contrib, h]

theorem contrib_of_state_ok (c : ClientId) (d : Deposit) (h : d.state = DepositState.Ok) :
    contrib c d = 0 := by
  simp [contrib, h]

theorem disputedSum_setKV_none (c : ClientId) (t : TransactionId) (d : Deposit)
    (ds : List (TransactionId × Deposit)) (h : getKV t ds = none) :
    disputedSum c (setKV t d ds) = disputedSum c ds + contrib c d := by
  induction ds with
  | nil => simp [setKV, disputedSum, add_comm]
  | cons hd tl ih =>
    obtain ⟨t1, d1⟩ := hd
    by_cases h1 : t1 = t
    · simp [getKV, h1] at h
    · simp only [getKV, if_pos, if_neg h1] at h
      simp only [setKV, if_neg h1, disputedSum, ih h, add_assoc]

theorem disputedSum_setKV_some (c : ClientId) (t : TransactionId) (d d0 : Deposit)
    (ds : List (TransactionId × Deposit)) (h : getKV t ds = some d0) :
    disputedSum c (setKV t d ds) = disputedSum c ds - contrib c d0 + contrib c d := by
  induction ds with
  | nil => simp [getKV] at h
  | cons hd tl ih =>
    obtain ⟨t1, d1⟩ := hd
    by_cases h1 : t1 = t
    · simp only [getKV, if_pos h1, Option.some.injEq] at h
      subst h
      simp only [setKV, if_pos h1, disputedSum]
      ring
    · simp only [getKV, if_neg h1] at h
      simp only [setKV, if_neg h1, disputedSum, ih h]
      ring

theorem deposit_of_locked (e : Engine) (c : ClientId) (t : TransactionId) (a : ℚ)
    (h : (e.acct c).locked = true) :
    e.deposit c t a = (e.touch c, some (Error.Locked c)) := by
  simp [Engine.deposit, acct_orDefault, h, Engine.touch]

theorem deposit_of_duplicate (e : Engine) (c : ClientId) (t : TransactionId) (a : ℚ)
    (d : Deposit) (h1 : (e.acct c).locked = false) (h2 : getKV t e.deposits = some d) :
    e.deposit c t a = (e.touch c, some (Error.DuplicateTransactionId t)) := by
  simp [Engine.deposit, acct_orDefault, h1, h2, Engine.touch]

theorem deposit_of_fresh (e : Engine) (c : ClientId) (t : TransactionId) (a : ℚ)
    (h1 : (e.acct c).locked = false) (h2 : getKV t e.deposits = none) :
    e.deposit c t a =
      (⟨setKV c { e.acct c with total := (e.acct c).total + a } (orDefault c e.accounts),
        setKV t ⟨c, a, DepositState.Ok⟩ e.deposits⟩, none) := by
  simp [Engine.deposit, acct_orDefault, h1, h2]

theorem withdraw_of_locked (e : Engine) (c : ClientId) (t : TransactionId) (a : ℚ)
    (h : (e.acct c).locked = true) :
    e.withdraw c t a = (e.touch c, some (Error.Locked c)) := by
  simp [Engine.withdraw, acct_orDefault, h, Engine.touch]

theorem withdraw_of_insufficient (e : Engine) (c : ClientId) (t : TransactionId) (a : ℚ)
    (h1 : (e.acct c).locked = false) (h2 : (e.acct c).available < a) :
    e.withdraw c t a = (e.touch c, some (Error.InsufficientFunds c (e.acct c).available a)) := by
  simp [Engine.withdraw, acct_orDefault, h1, h2, Engine.touch]

theorem withdraw_of_sufficient (e : Engine) (c : ClientId) (t : TransactionId) (a : ℚ)
    (h1 : (e.acct c).locked = false) (h2 : ¬ (e.acct c).available < a) :
    e.withdraw c t a =
      (⟨setKV c { e.acct c with total := (e.acct c).total - a } (orDefault c e.accounts),
        e.deposits⟩, none) := by
  simp [Engine.withdraw, acct_orDefault, h1, h2]

theorem dispute_of_notFound (e : Engine) (c : ClientId) (t : TransactionId)
    (h : getKV t e.deposits = none) :
    e.dispute c t = (e.touch c, some (Error.TransactionNotFound t)) := by
  simp [Engine.dispute, acct_orDefault, h, Engine.touch]

theorem dispute_of_mismatch (e : Engine) (c : ClientId) (t : TransactionId) (d : Deposit)
    (h1 : getKV t e.deposits = some d) (h2 : d.client ≠ c) :
    e.dispute c t = (e.touch c, some (Error.ClientMismatch t c d.client)) := by
  simp [Engine.dispute, acct_orDefault, h1, h2, Engine.touch]

theorem dispute_of_notOk (e : Engine) (c : ClientId) (t : TransactionId) (d : Deposit)
    (h1 : getKV t e.deposits = some d) (h2 : d.client = c) (h3 : d.state ≠ DepositState.Ok) :
    e.dispute c t = (e.touch c, some (Error.AlreadyDisputed t)) := by
  simp [Engine.dispute, acct_orDefault, h1, h2, h3, Engine.touch]

theorem dispute_of_ok (e : Engine) (c : ClientId) (t : TransactionId) (d : Deposit)
    (h1 : getKV t e.deposits = some d) (h2 : d.client = c) (h3 : d.state = DepositState.Ok) :
    e.dispute c t =
      (⟨setKV c { e.acct c with held := (e.acct c).held + d.amount } (orDefault c e.accounts),
        setKV t { d with state := DepositState.Dispute } e.deposits⟩, none) := by
  simp [Engine.dispute, acct_orDefault, h1, h2, h3]

theorem resolve_of_notFound (e : Engine) (c : ClientId) (t : TransactionId)
    (h : getKV t e.deposits = none) :
    e.resolve c t = (e.touch c, some (Error.TransactionNotFound t)) := by
  simp [Engine.resolve, acct_orDefault, h, Engine.touch]

theorem resolve_of_mismatch (e : Engine) (c : ClientId) (t : TransactionId) (d : Deposit)
    (h1 : getKV t e.deposits = some d) (h2 : d.client ≠ c) :
    e.resolve c t = (e.touch c, some (Error.ClientMismatch t c d.client)) := by
  simp [Engine.resolve, acct_orDefault, h1, h2, Engine.touch]

theorem resolve_of_notDisputed (e : Engine) (c : ClientId) (t : TransactionId) (d : Deposit)
    (h1 : getKV t e.deposits = some d) (h2 : d.client = c)
    (h3 : d.state ≠ DepositState.Dispute) :
    e.resolve c t = (e.touch c, some (Error.NotDisputed t)) := by
  simp [Engine.resolve, acct_orDefault, h1, h2, h3, Engine.touch]

theorem resolve_of_disputed (e : Engine) (c : ClientId) (t : TransactionId) (d : Deposit)
    (h1 : getKV t e.deposits = some d) (h2 : d.client = c)
    (h3 : d.state = DepositState.Dispute) :
    e.resolve c t =
      (⟨setKV c { e.acct c with held := (e.acct c).held - d.amount } (orDefault c e.accounts),
        setKV t { d with state := DepositState.Ok } e.deposits⟩, none) := by
  simp [Engine.resolve, acct_orDefault, h1, h2, h3]

theorem chargeback_of_notFound (e : Engine) (c : ClientId) (t : TransactionId)
    (h : getKV t e.deposits = none) :
    e.chargeback c t = (e.touch c, some (Error.TransactionNotFound t)) := by
  simp [Engine.chargeback, acct_orDefault, h, Engine.touch]

theorem chargeback_of_mismatch (e : Engine) (c : ClientId) (t : TransactionId) (d : Deposit)
    (h1 : getKV t e.deposits = some d) (h2 : d.client ≠ c) :
    e.chargeback c t = (e.touch c, some (Error.ClientMismatch t c d.client)) := by
  simp [Engine.chargeback, acct_orDefault, h1, h2, Engine.touch]

theorem chargeback_of_notDisputed (e : Engine) (c : ClientId) (t : TransactionId) (d : Deposit)
    (h1 : getKV t e.deposits = some d) (h2 : d.client = c)
    (h3 : d.state ≠ DepositState.Dispute) :
    e.chargeback c t = (e.touch c, some (Error.NotDisputed t)) := by
  simp [Engine.chargeback, acct_orDefault, h1, h2, h3, Engine.touch]

theorem chargeback_of_disputed (e : Engine) (c : ClientId) (t : TransactionId) (d : Deposit)
    (h1 : getKV t e.deposits = some d) (h2 : d.client = c)
    (h3 : d.state = DepositState.Dispute) :
    e.chargeback c t =
      (⟨setKV c
          { total := (e.acct c).total - d.amount,
            held := (e.acct c).held - d.amount,
            locked := true } (orDefault c e.accounts),
        setKV t { d with state := DepositState.Chargeback } e.deposits⟩, none) := by
  simp [Engine.chargeback, acct_orDefault, h1, h2, h3]

theorem acct_write (l : List (ClientId × Account)) (c c1 : ClientId) (acc1 : Account) :
    (getKV c1 (setKV c acc1 (orDefault c l))).getD Account.default =
      if c1 = c then acc1 else (getKV c1 l).getD Account.default := by
  by_cases h : c1 = c
  · subst h
    simp [getKV_setKV_self]
  · rw [getKV_setKV_ne c1 c _ _ h, getKV_orDefault_ne c1 c _ h, if_neg h]

theorem Inv_touch (e : Engine) (c : ClientId) (h : e.Inv) : (e.touch c).Inv := by
  intro c1
  have h1 := h c1
  simp only [Engine.heldOf] at h1 ⊢
  rw [touch_acct, touch_deposits]
  exact h1

theorem contrib_disputed (c : ClientId) (d : Deposit) (h1 : d.client = c) :
    contrib c { d with state := DepositState.Dispute } = d.amount := by
  simp [contrib, h1]

theorem contrib_other_client (c c1 : ClientId) (d : Deposit) (st : DepositState)
    (h1 : d.client = c) (h2 : c1 ≠ c) :
    contrib c1 { d with state := st } = 0 := by
  apply contrib_of_ne_client
  simp only [h1]
  exact fun h3 => h2 h3.symm

theorem Inv_apply (e : Engine) (op : Op) (h : e.Inv) : (e.apply op).1.Inv := by
  cases op with
  | deposit c t a =>
    show (e.deposit c t a).1.Inv
    by_cases hl : (e.acct c).locked = true
    · rw [deposit_of_locked e c t a hl]
      exact Inv_touch e c h
    · rw [Bool.not_eq_true] at hl
      cases hd : getKV t e.deposits with
      | some d0 =>
        rw [deposit_of_duplicate e c t a d0 hl hd]
        exact Inv_touch e c h
      | none =>
        rw [deposit_of_fresh e c t a hl hd]
        intro c1
        simp only [Engine.heldOf, Engine.acct, acct_write]
        rw [disputedSum_setKV_none c1 t _ _ hd,
          contrib_of_state_ok c1 ⟨c, a, DepositState.Ok⟩ rfl, add_zero]
        have h1 := h c1
        simp only [Engine.heldOf, Engine.acct] at h1
        by_cases hc : c1 = c
        · subst hc
          simpa using h1
        · simpa [if_neg hc] using h1
  | withdraw c t a =>
    show (e.withdraw c t a).1.Inv
    by_cases hl : (e.acct c).locked = true
    · rw [withdraw_of_locked e c t a hl]
      exact Inv_touch e c h
    · rw [Bool.not_eq_true] at hl
      by_cases hv : (e.acct c).available < a
      · rw [withdraw_of_insufficient e c t a hl hv]
        exact Inv_touch e c h
      · rw [withdraw_of_sufficient e c t a hl hv]
        intro c1
        simp only [Engine.heldOf, Engine.acct, acct_write]
        have h1 := h c1
        simp only [Engine.heldOf, Engine.acct] at h1
        by_cases hc : c1 = c
        · subst hc
          simpa using h1
        · simpa [if_neg hc] using h1
  | dispute c t =>
    show (e.dispute c t).1.Inv
    cases hd : getKV t e.deposits with
    | none =>
      rw [dispute_of_notFound e c t hd]
      exact Inv_touch e c h
    | some d =>
      by_cases hm : d.client = c
      · by_cases hs : d.state = DepositState.Ok
        · rw [dispute_of_ok e c t d hd hm hs]
          intro c1
          simp only [Engine.heldOf, Engine.acct, acct_write]
          rw [disputedSum_setKV_some c1 t _ d _ hd, contrib_of_state_ok c1 d hs, sub_zero]
          have h1 := h c1
          simp only [Engine.heldOf, Engine.acct] at h1
          by_cases hc : c1 = c
          · subst hc
            rw [contrib_disputed c1 d hm]
            simp [h1]
          · rw [contrib_other_client c c1 d DepositState.Dispute hm hc, add_zero, if_neg hc]
            exact h1
        · rw [dispute_of_notOk e c t d hd hm hs]
          exact Inv_touch e c h
      · rw [dispute_of_mismatch e c t d hd hm]
        exact Inv_touch e c h
  | resolve c t =>
    show (e.resolve c t).1.Inv
    cases hd : getKV t e.deposits with
    | none =>
      rw [resolve_of_notFound e c t hd]
      exact Inv_touch e c h
    | some d =>
      by_cases hm : d.client = c
      · by_cases hs : d.state = DepositState.Dispute
        · rw [resolve_of_disputed e c t d hd hm hs]
          intro c1
          simp only [Engine.heldOf, Engine.acct, acct_write]
          rw [disputedSum_setKV_some c1 t _ d _ hd]
          have h1 := h c1
          simp only [Engine.heldOf, Engine.acct] at h1
          by_cases hc : c1 = c
          · subst hc
            rw [contrib_of_state_ok c1 { d with state := DepositState.Ok } rfl,
              add_zero, if_pos rfl]
            have hcd : contrib c1 d = d.amount := by simp [contrib, hm, hs]
            rw [hcd]
            simp [h1]
          · rw [contrib_other_client c c1 d DepositState.Ok hm hc, add_zero, if_neg hc,
              contrib_of_ne_client c1 d (fun h3 => hc (hm ▸ h3).symm), sub_zero]
            exact h1
        · rw [resolve_of_notDisputed e c t d hd hm hs]
          exact Inv_touch e c h
      · rw [resolve_of_mismatch e c t d hd hm]
        exact Inv_touch e c h
  | chargeback c t =>
    show (e.chargeback c t).1.Inv
    cases hd : getKV t e.deposits with
    | none =>
      rw [chargeback_of_notFound e c t hd]
      exact Inv_touch e c h
    | some d =>
      by_cases hm : d.client = c
      · by_cases hs : d.state = DepositState.Dispute
        · rw [chargeback_of_disputed e c t d hd hm hs]
          intro c1
          simp only [Engine.heldOf, Engine.acct, acct_write]
          rw [disputedSum_setKV_some c1 t _ d _ hd]
          have h1 := h c1
          simp only [Engine.heldOf, Engine.acct] at h1
          by_cases hc : c1 = c
          · subst hc
            rw [if_pos rfl]
            have hc2 : contrib c1 { d with state := DepositState.Chargeback } = 0 := by
              simp [contrib]
            have hcd : contrib c1 d = d.amount := by simp [contrib, hm, hs]
            rw [hc2, hcd, add_zero]
            simp [h1]
          · rw [contrib_other_client c c1 d DepositState.Chargeback hm hc, add_zero, if_neg hc,
              contrib_of_ne_client c1 d (fun h3 => hc (hm ▸ h3).symm), sub_zero]
            exact h1
        · rw [chargeback_of_notDisputed e c t d hd hm hs]
          exact Inv_touch e c h
      · rw [chargeback_of_mismatch e c t d hd hm]
        exact Inv_touch e c h

theorem Inv_new : Engine.new.Inv := by
  intro c
  simp [Engine.heldOf, Engine.acct, Engine.new, getKV, Account.default, disputedSum]

theorem Inv_foldl (ops : List Op) (e : Engine) (h : e.Inv) :
    (ops.foldl (fun e1 op => (e1.apply op).1) e).Inv := by
  induction ops generalizing e with
  | nil => exact h
  | cons op rest ih => exact ih _ (Inv_apply e op h)

theorem Inv_runOps (ops : List Op) : (Engine.runOps ops).Inv :=
  Inv_foldl ops Engine.new Inv_new

/-- Claim C1: for every sequence of operations applied to a fresh engine,
after every operation, every client that has an account has its held field
equal to the sum of the amounts of all deposit records owned by that
client whose lifecycle state is currently Dispute. -/
theorem held_eq_disputedSum (ops : List Op) (c : ClientId) (a : Account)
    (h : getKV c (Engine.runOps ops).accounts = some a) :
    a.held = disputedSum c (Engine.runOps ops).deposits := by
  have h1 := Inv_runOps ops c
  simp only [Engine.heldOf, Engine.acct, h, Option.getD_some] at h1
  exact h1

/-- Witness for C1: after a deposit of 10 and a dispute, client 1 holds an
account with held 10, and the disputed sum is computed on it. -/
theorem held_eq_disputedSum_witness :
    (⟨10, 10, false⟩ : Account).held =
      disputedSum 1 (Engine.runOps [Op.deposit 1 1 10, Op.dispute 1 1]).deposits :=
  held_eq_disputedSum [Op.deposit 1 1 10, Op.dispute 1 1] 1 ⟨10, 10, false⟩ (by
    norm_num [Engine.runOps, Engine.apply, Engine.deposit, Engine.dispute, Engine.new,
      orDefault, getKV, setKV, Account.default])

theorem apply_failed_eq_touch (e : Engine) (op : Op) (err : Error)
    (h : (e.apply op).2 = some err) : (e.apply op).1 = e.touch op.client := by
  cases op with
  | deposit c t a =>
    show (e.deposit c t a).1 = e.touch c
    by_cases hl : (e.acct c).locked = true
    · rw [deposit_of_locked e c t a hl]
    · rw [Bool.not_eq_true] at hl
      cases hd : getKV t e.deposits with
      | some d0 => rw [deposit_of_duplicate e c t a d0 hl hd]
      | none =>
        rw [show e.apply (Op.deposit c t a) = e.deposit c t a from rfl,
          deposit_of_fresh e c t a hl hd] at h
        simp at h
  | withdraw c t a =>
    show (e.withdraw c t a).1 = e.touch c
    by_cases hl : (e.acct c).locked = true
    · rw [withdraw_of_locked e c t a hl]
    · rw [Bool.not_eq_true] at hl
      by_cases hv : (e.acct c).available < a
      · rw [withdraw_of_insufficient e c t a hl hv]
      · rw [show e.apply (Op.withdraw c t a) = e.withdraw c t a from rfl,
          withdraw_of_sufficient e c t a hl hv] at h
        simp at h
  | dispute c t =>
    show (e.dispute c t).1 = e.touch c
    cases hd : getKV t e.deposits with
    | none => rw [dispute_of_notFound e c t hd]
    | some d =>
      by_cases hm : d.client = c
      · by_cases hs : d.state = DepositState.Ok
        · rw [show e.apply (Op.dispute c t) = e.dispute c t from rfl,
            dispute_of_ok e c t d hd hm hs] at h
          simp at h
        · rw [dispute_of_notOk e c t d hd hm hs]
      · rw [dispute_of_mismatch e c t d hd hm]
  | resolve c t =>
    show (e.resolve c t).1 = e.touch c
    cases hd : getKV t e.deposits with
    | none => rw [resolve_of_notFound e c t hd]
    | some d =>
      by_cases hm : d.client = c
      · by_cases hs : d.state = DepositState.Dispute
        · rw [show e.apply (Op.resolve c t) = e.resolve c t from rfl,
            resolve_of_disputed e c t d hd hm hs] at h
          simp at h
        · rw [resolve_of_notDisputed e c t d hd hm hs]
      · rw [resolve_of_mismatch e c t d hd hm]
  | chargeback c t =>
    show (e.chargeback c t).1 = e.touch c
    cases hd : getKV t e.deposits with
    | none => rw [chargeback_of_notFound e c t hd]
    | some d =>
      by_cases hm : d.client = c
      · by_cases hs : d.state = DepositState.Dispute
        · rw [show e.apply (Op.chargeback c t) = e.chargeback c t from rfl,
            chargeback_of_disputed e c t d hd hm hs] at h
          simp at h
        · rw [chargeback_of_notDisputed e c t d hd hm hs]
      · rw [chargeback_of_mismatch e c t d hd hm]

/-- Claim C2: every operation is atomic.  When a call fails, the engine
afterwards is exactly the engine before with only the or_default step
applied to the client argument: deposit records are untouched, every other
client keeps its account unchanged, the named client keeps its account
when it had one, and otherwise gains the default account, whose fields are
total zero, held zero and locked false. -/
theorem apply_failure_atomic (e : Engine) (op : Op) (err : Error)
    (h : (e.apply op).2 = some err) :
    (e.apply op).1 = e.touch op.client ∧
    (e.touch op.client).deposits = e.deposits ∧
    (∀ c1, c1 ≠ op.client → getKV c1 (e.touch op.client).accounts = getKV c1 e.accounts) ∧
    (∀ a1, getKV op.client e.accounts = some a1 →
        getKV op.client (e.touch op.client).accounts = some a1) ∧
    (getKV op.client e.accounts = none →
        getKV op.client (e.touch op.client).accounts = some Account.default) ∧
    Account.default.total = 0 ∧ Account.default.held = 0 ∧ Account.default.locked = false := by
  refine ⟨apply_failed_eq_touch e op err h, rfl, ?_, ?_, ?_, rfl, rfl, rfl⟩
  · intro c1 hc
    exact getKV_orDefault_ne c1 op.client e.accounts hc
  · intro a1 ha
    rw [Engine.touch, getKV_orDefault_self, ha]
    rfl
  · intro ha
    rw [Engine.touch, getKV_orDefault_self, ha]
    rfl

/-- Witness for C2: withdrawing 5 from a fresh engine fails with
insufficient funds and leaves only the default account for client 1
behind. -/
theorem apply_failure_atomic_witness :
    (Engine.new.apply (Op.withdraw 1 1 5)).1 = Engine.new.touch (Op.withdraw 1 1 5).client :=
  (apply_failure_atomic Engine.new (Op.withdraw 1 1 5) (Error.InsufficientFunds 1 0 5) (by
    norm_num [Engine.apply, Engine.withdraw, Engine.new, orDefault, getKV, setKV,
      Account.default, Account.available])).1

/-- Claim C3: deposit fails with Locked when the account is locked, before
any other check; it fails with DuplicateTransactionId when a deposit
record keyed by the transaction id exists, whatever its state; and
otherwise it succeeds, creates a deposit record in state Ok owned by the
client holding the amount, leaves every other deposit record alone, and
adds the amount to the total of the account, leaving held and locked
unchanged. -/
theorem deposit_spec (e : Engine) (c : ClientId) (t : TransactionId) (a : ℚ) :
    ((e.acct c).locked = true → e.deposit c t a = (e.touch c, some (Error.Locked c))) ∧
    (∀ d, (e.acct c).locked = false → getKV t e.deposits = some d →
        e.deposit c t a = (e.touch c, some (Error.DuplicateTransactionId t))) ∧
    ((e.acct c).locked = false → getKV t e.deposits = none →
        (e.deposit c t a).2 = none ∧
        getKV t (e.deposit c t a).1.deposits = some ⟨c, a, DepositState.Ok⟩ ∧
        (∀ t1, t1 ≠ t → getKV t1 (e.deposit c t a).1.deposits = getKV t1 e.deposits) ∧
        (e.deposit c t a).1.totalOf c = e.totalOf c + a ∧
        (e.deposit c t a).1.heldOf c = e.heldOf c ∧
        (e.deposit c t a).1.lockedOf c = e.lockedOf c) := by
  refine ⟨fun hl => deposit_of_locked e c t a hl,
    fun d hl hd => deposit_of_duplicate e c t a d hl hd,
    fun hl hd => ?_⟩
  rw [deposit_of_fresh e c t a hl hd]
  refine ⟨rfl, getKV_setKV_self t _ e.deposits,
    fun t1 ht => getKV_setKV_ne t1 t _ e.deposits ht, ?_, ?_, ?_⟩
  all_goals
    simp [Engine.totalOf, Engine.heldOf, Engine.lockedOf, Engine.acct, acct_write]

theorem withdraw_deposits (e : Engine) (c : ClientId) (t : TransactionId) (a : ℚ) :
    (e.withdraw c t a).1.deposits = e.deposits := by
  by_cases hl : (e.acct c).locked = true
  · rw [withdraw_of_locked e c t a hl]
    rfl
  · rw [Bool.not_eq_true] at hl
    by_cases hv : (e.acct c).available < a
    · rw [withdraw_of_insufficient e c t a hl hv]
      rfl
    · rw [withdraw_of_sufficient e c t a hl hv]

theorem getKV_deposits_apply_none (e : Engine) (op : Op) (t : TransactionId)
    (h : getKV t e.deposits = none) (hop : op.isDepositTo t = false) :
    getKV t (e.apply op).1.deposits = none := by
  cases op with
  | deposit c t1 a =>
    have ht : t1 ≠ t := by simpa [Op.isDepositTo] using hop
    show getKV t (e.deposit c t1 a).1.deposits = none
    by_cases hl : (e.acct c).locked = true
    · rw [deposit_of_locked e c t1 a hl]
      exact h
    · rw [Bool.not_eq_true] at hl
      cases hd : getKV t1 e.deposits with
      | some d0 =>
        rw [deposit_of_duplicate e c t1 a d0 hl hd]
        exact h
      | none =>
        rw [deposit_of_fresh e c t1 a hl hd]
        show getKV t (setKV t1 _ e.deposits) = none
        rw [getKV_setKV_ne t t1 _ e.deposits (fun h1 => ht h1.symm)]
        exact h
  | withdraw c t1 a =>
    show getKV t (e.withdraw c t1 a).1.deposits = none
    rw [withdraw_deposits]
    exact h
  | dispute c t1 =>
    show getKV t (e.dispute c t1).1.deposits = none
    cases hd : getKV t1 e.deposits with
    | none =>
      rw [dispute_of_notFound e c t1 hd]
      exact h
    | some d =>
      have ht : t1 ≠ t := fun h1 => by rw [h1, h] at hd; exact Option.noConfusion hd
      by_cases hm : d.client = c
      · by_cases hs : d.state = DepositState.Ok
        · rw [dispute_of_ok e c t1 d hd hm hs]
          show getKV t (setKV t1 _ e.deposits) = none
          rw [getKV_setKV_ne t t1 _ e.deposits (fun h1 => ht h1.symm)]
          exact h
        · rw [dispute_of_notOk e c t1 d hd hm hs]
          exact h
      · rw [dispute_of_mismatch e c t1 d hd hm]
        exact h
  | resolve c t1 =>
    show getKV t (e.resolve c t1).1.deposits = none
    cases hd : getKV t1 e.deposits with
    | none =>
      rw [resolve_of_notFound e c t1 hd]
      exact h
    | some d =>
      have ht : t1 ≠ t := fun h1 => by rw [h1, h] at hd; exact Option.noConfusion hd
      by_cases hm : d.client = c
      · by_cases hs : d.state = DepositState.Dispute
        · rw [resolve_of_disputed e c t1 d hd hm hs]
          show getKV t (setKV t1 _ e.deposits) = none
          rw [getKV_setKV_ne t t1 _ e.deposits (fun h1 => ht h1.symm)]
          exact h
        · rw [resolve_of_notDisputed e c t1 d hd hm hs]
          exact h
      · rw [resolve_of_mismatch e c t1 d hd hm]
        exact h
  | chargeback c t1 =>
    show getKV t (e.chargeback c t1).1.deposits = none
    cases hd : getKV t1 e.deposits with
    | none =>
      rw [chargeback_of_notFound e c t1 hd]
      exact h
    | some d =>
      have ht : t1 ≠ t := fun h1 => by rw [h1, h] at hd; exact Option.noConfusion hd
      by_cases hm : d.client = c
      · by_cases hs : d.state = DepositState.Dispute
        · rw [chargeback_of_disputed e c t1 d hd hm hs]
          show getKV t (setKV t1 _ e.deposits) = none
          rw [getKV_setKV_ne t t1 _ e.deposits (fun h1 => ht h1.symm)]
          exact h
        · rw [chargeback_of_notDisputed e c t1 d hd hm hs]
          exact h
      · rw [chargeback_of_mismatch e c t1 d hd hm]
        exact h

theorem getKV_foldl_none (ops : List Op) (e : Engine) (t : TransactionId)
    (h0 : getKV t e.deposits = none) (h : ∀ op ∈ ops, op.isDepositTo t = false) :
    getKV t ((ops.foldl (fun e1 op => (e1.apply op).1) e)).deposits = none := by
  induction ops generalizing e with
  | nil => exact h0
  | cons op rest ih =>
    exact ih _ (getKV_deposits_apply_none e op t h0 (h op (List.mem_cons_self op rest)))
      (fun op1 hm => h op1 (List.mem_cons_of_mem op hm))

theorem getKV_runOps_none (ops : List Op) (t : TransactionId)
    (h : ∀ op ∈ ops, op.isDepositTo t = false) :
    getKV t (Engine.runOps ops).deposits = none :=
  getKV_foldl_none ops Engine.new t rfl h

/-- Claim C4: withdraw succeeds exactly when the account is not locked and
the available balance, which is total minus held, is at least the amount;
on success it subtracts the amount from total; it never records anything
about the transaction id, so disputing an id that was never deposited,
over any operation sequence from a fresh engine without a deposit under
that id, fails with TransactionNotFound; and when the account is not
locked but the available balance is short, the error is InsufficientFunds
carrying the client, the available amount and the requested amount. -/
theorem withdraw_spec (e : Engine) (c : ClientId) (t : TransactionId) (a : ℚ) :
    ((e.withdraw c t a).2 = none ↔ ((e.acct c).locked = false ∧ a ≤ (e.acct c).available)) ∧
    (e.acct c).available = (e.acct c).total - (e.acct c).held ∧
    ((e.withdraw c t a).2 = none →
        (e.withdraw c t a).1.totalOf c = e.totalOf c - a ∧
        (e.withdraw c t a).1.heldOf c = e.heldOf c ∧
        (e.withdraw c t a).1.lockedOf c = e.lockedOf c) ∧
    (e.withdraw c t a).1.deposits = e.deposits ∧
    ((e.acct c).locked = false → (e.acct c).available < a →
        e.withdraw c t a = (e.touch c, some (Error.InsufficientFunds c (e.acct c).available a))) ∧
    (∀ ops c1, (∀ op ∈ ops, op.isDepositTo t = false) →
        ((Engine.runOps ops).dispute c1 t).2 = some (Error.TransactionNotFound t)) := by
  refine ⟨?_, rfl, ?_, withdraw_deposits e c t a,
    fun hl hv => withdraw_of_insufficient e c t a hl hv, fun ops c1 hops => ?_⟩
  · constructor
    · intro h
      by_cases hl : (e.acct c).locked = true
      · rw [withdraw_of_locked e c t a hl] at h
        simp at h
      · rw [Bool.not_eq_true] at hl
        by_cases hv : (e.acct c).available < a
        · rw [withdraw_of_insufficient e c t a hl hv] at h
          simp at h
        · exact ⟨hl, le_of_not_lt hv⟩
    · rintro ⟨hl, hv⟩
      rw [withdraw_of_sufficient e c t a hl (not_lt_of_le hv)]
  · intro h
    have hl : (e.acct c).locked = false := by
      by_cases hl : (e.acct c).locked = true
      · rw [withdraw_of_locked e c t a hl] at h
        simp at h
      · exact Bool.not_eq_true _ ▸ hl
    have hv : ¬ (e.acct c).available < a := by
      intro hv
      rw [withdraw_of_insufficient e c t a hl hv] at h
      simp at h
    rw [withdraw_of_sufficient e c t a hl hv]
    simp [Engine.totalOf, Engine.heldOf, Engine.lockedOf, Engine.acct, acct_write]
  · rw [dispute_of_notFound _ c1 t (getKV_runOps_none ops t hops)]

/-- Claim C5: dispute checks its failures in the order transaction not
found, then client mismatch, then record not in state Ok; on success the
record moves to Dispute, held grows by the amount of the record and total
is unchanged.  Resolve and chargeback use the same not-found then
mismatch precedence before their own not-disputed check. -/
theorem dispute_resolve_chargeback_precedence (e : Engine) (c : ClientId) (t : TransactionId) :
    (getKV t e.deposits = none →
        e.dispute c t = (e.touch c, some (Error.TransactionNotFound t)) ∧
        e.resolve c t = (e.touch c, some (Error.TransactionNotFound t)) ∧
        e.chargeback c t = (e.touch c, some (Error.TransactionNotFound t))) ∧
    (∀ d, getKV t e.deposits = some d → d.client ≠ c →
        e.dispute c t = (e.touch c, some (Error.ClientMismatch t c d.client)) ∧
        e.resolve c t = (e.touch c, some (Error.ClientMismatch t c d.client)) ∧
        e.chargeback c t = (e.touch c, some (Error.ClientMismatch t c d.client))) ∧
    (∀ d, getKV t e.deposits = some d → d.client = c → d.state ≠ DepositState.Ok →
        e.dispute c t = (e.touch c, some (Error.AlreadyDisputed t))) ∧
    (∀ d, getKV t e.deposits = some d → d.client = c → d.state ≠ DepositState.Dispute →
        e.resolve c t = (e.touch c, some (Error.NotDisputed t)) ∧
        e.chargeback c t = (e.touch c, some (Error.NotDisputed t))) ∧
    (∀ d, getKV t e.deposits = some d → d.client = c → d.state = DepositState.Ok →
        (e.dispute c t).2 = none ∧
        getKV t (e.dispute c t).1.deposits = some { d with state := DepositState.Dispute } ∧
        (e.dispute c t).1.heldOf c = e.heldOf c + d.amount ∧
        (e.dispute c t).1.totalOf c = e.totalOf c) := by
  refine ⟨fun hd => ⟨dispute_of_notFound e c t hd, resolve_of_notFound e c t hd,
      chargeback_of_notFound e c t hd⟩,
    fun d hd hm => ⟨dispute_of_mismatch e c t d hd hm, resolve_of_mismatch e c t d hd hm,
      chargeback_of_mismatch e c t d hd hm⟩,
    fun d hd hm hs => dispute_of_notOk e c t d hd hm hs,
    fun d hd hm hs => ⟨resolve_of_notDisputed e c t d hd hm hs,
      chargeback_of_notDisputed e c t d hd hm hs⟩,
    fun d hd hm hs => ?_⟩
  rw [dispute_of_ok e c t d hd hm hs]
  refine ⟨rfl, getKV_setKV_self t _ e.deposits, ?_, ?_⟩
  all_goals
    simp [Engine.totalOf, Engine.heldOf, Engine.acct, acct_write]

/-- Claim C6: a successful chargeback moves the record to the terminal
Chargeback state, lowers held and total by exactly the amount of the
record with no clamping, and locks the account; on a fresh engine the
sequence deposit of 10, dispute, chargeback leaves total zero, held zero
and the account locked. -/
theorem chargeback_success (e : Engine) (c : ClientId) (t : TransactionId) (d : Deposit)
    (h1 : getKV t e.deposits = some d) (h2 : d.client = c)
    (h3 : d.state = DepositState.Dispute) :
    (e.chargeback c t).2 = none ∧
    getKV t (e.chargeback c t).1.deposits = some { d with state := DepositState.Chargeback } ∧
    (e.chargeback c t).1.heldOf c = e.heldOf c - d.amount ∧
    (e.chargeback c t).1.totalOf c = e.totalOf c - d.amount ∧
    (e.chargeback c t).1.lockedOf c = true ∧
    (Engine.runOps [Op.deposit c 1 10, Op.dispute c 1, Op.chargeback c 1]).totalOf c = 0 ∧
    (Engine.runOps [Op.deposit c 1 10, Op.dispute c 1, Op.chargeback c 1]).heldOf c = 0 ∧
    (Engine.runOps [Op.deposit c 1 10, Op.dispute c 1, Op.chargeback c 1]).lockedOf c = true := by
  rw [chargeback_of_disputed e c t d h1 h2 h3]
  refine ⟨rfl, getKV_setKV_self t _ e.deposits, ?_, ?_, ?_, ?_, ?_, ?_⟩
  · simp [Engine.heldOf, Engine.acct, acct_write]
  · simp [Engine.totalOf, Engine.acct, acct_write]
  · simp [Engine.lockedOf, Engine.acct, acct_write]
  all_goals
    norm_num [Engine.runOps, Engine.apply, Engine.deposit, Engine.dispute, Engine.chargeback,
      Engine.new, Engine.totalOf, Engine.heldOf, Engine.lockedOf, Engine.acct,
      orDefault, getKV, setKV, Account.default]

/-- Witness for C6: a chargeback on a literal engine holding a disputed
deposit of 5 for client 1 succeeds. -/
theorem chargeback_success_witness :
    ((Engine.mk [(1, ⟨5, 5, false⟩)] [(4, ⟨1, 5, DepositState.Dispute⟩)]).chargeback 1 4).2 =
      none :=
  (chargeback_success (Engine.mk [(1, ⟨5, 5, false⟩)] [(4, ⟨1, 5, DepositState.Dispute⟩)])
    1 4 ⟨1, 5, DepositState.Dispute⟩ rfl rfl rfl).1

theorem lockedOf_touch (e : Engine) (c0 c : ClientId) :
    (e.touch c0).lockedOf c = e.lockedOf c := by
  simp [Engine.lockedOf, touch_acct]

theorem lockedOf_apply (e : Engine) (op : Op) (c : ClientId)
    (h : e.lockedOf c = true) : (e.apply op).1.lockedOf c = true := by
  cases hs : (e.apply op).2 with
  | some err =>
    rw [apply_failed_eq_touch e op err hs, lockedOf_touch]
    exact h
  | none =>
    cases op with
    | deposit c0 t a =>
      have hl : (e.acct c0).locked = false := by
        by_cases hl : (e.acct c0).locked = true
        · rw [show e.apply (Op.deposit c0 t a) = e.deposit c0 t a from rfl,
            deposit_of_locked e c0 t a hl] at hs
          simp at hs
        · exact Bool.not_eq_true _ ▸ hl
      cases hd : getKV t e.deposits with
      | some d0 =>
        rw [show e.apply (Op.deposit c0 t a) = e.deposit c0 t a from rfl,
          deposit_of_duplicate e c0 t a d0 hl hd] at hs
        simp at hs
      | none =>
        show (e.deposit c0 t a).1.lockedOf c = true
        rw [deposit_of_fresh e c0 t a hl hd]
        simp only [Engine.lockedOf, Engine.acct, acct_write]
        by_cases hc : c = c0
        · subst hc
          rw [if_pos rfl]
          simp only [Engine.lockedOf, Engine.acct] at h hl
          rw [h] at hl
          simp at hl
        · rw [if_neg hc]
          simpa [Engine.lockedOf, Engine.acct] using h
    | withdraw c0 t a =>
      have hl : (e.acct c0).locked = false := by
        by_cases hl : (e.acct c0).locked = true
        · rw [show e.apply (Op.withdraw c0 t a) = e.withdraw c0 t a from rfl,
            withdraw_of_locked e c0 t a hl] at hs
          simp at hs
        · exact Bool.not_eq_true _ ▸ hl
      by_cases hv : (e.acct c0).available < a
      · rw [show e.apply (Op.withdraw c0 t a) = e.withdraw c0 t a from rfl,
          withdraw_of_insufficient e c0 t a hl hv] at hs
        simp at hs
      · show (e.withdraw c0 t a).1.lockedOf c = true
        rw [withdraw_of_sufficient e c0 t a hl hv]
        simp only [Engine.lockedOf, Engine.acct, acct_write]
        by_cases hc : c = c0
        · subst hc
          rw [if_pos rfl]
          simp only [Engine.lockedOf, Engine.acct] at h hl
          rw [h] at hl
          simp at hl
        · rw [if_neg hc]
          simpa [Engine.lockedOf, Engine.acct] using h
    | dispute c0 t =>
      cases hd : getKV t e.deposits with
      | none =>
        rw [show e.apply (Op.dispute c0 t) = e.dispute c0 t from rfl,
          dispute_of_notFound e c0 t hd] at hs
        simp at hs
      | some d =>
        by_cases hm : d.client = c0
        · by_cases hok : d.state = DepositState.Ok
          · show (e.dispute c0 t).1.lockedOf c = true
            rw [dispute_of_ok e c0 t d hd hm hok]
            simp only [Engine.lockedOf, Engine.acct, acct_write]
            by_cases hc : c = c0
            · subst hc
              rw [if_pos rfl]
              simpa [Engine.lockedOf, Engine.acct] using h
            · rw [if_neg hc]
              simpa [Engine.lockedOf, Engine.acct] using h
          · rw [show e.apply (Op.dispute c0 t) = e.dispute c0 t from rfl,
              dispute_of_notOk e c0 t d hd hm hok] at hs
            simp at hs
        · rw [show e.apply (Op.dispute c0 t) = e.dispute c0 t from rfl,
            dispute_of_mismatch e c0 t d hd hm] at hs
          simp at hs
    | resolve c0 t =>
      cases hd : getKV t e.deposits with
      | none =>
        rw [show e.apply (Op.resolve c0 t) = e.resolve c0 t from rfl,
          resolve_of_notFound e c0 t hd] at hs
        simp at hs
      | some d =>
        by_cases hm : d.client = c0
        · by_cases hdis : d.state = DepositState.Dispute
          · show (e.resolve c0 t).1.lockedOf c = true
            rw [resolve_of_disputed e c0 t d hd hm hdis]
            simp only [Engine.lockedOf, Engine.acct, acct_write]
            by_cases hc : c = c0
            · subst hc
              rw [if_pos rfl]
              simpa [Engine.lockedOf, Engine.acct] using h
            · rw [if_neg hc]
              simpa [Engine.lockedOf, Engine.acct] using h
          · rw [show e.apply (Op.resolve c0 t) = e.resolve c0 t from rfl,
              resolve_of_notDisputed e c0 t d hd hm hdis] at hs
            simp at hs
        · rw [show e.apply (Op.resolve c0 t) = e.resolve c0 t from rfl,
            resolve_of_mismatch e c0 t d hd hm] at hs
          simp at hs
    | chargeback c0 t =>
      cases hd : getKV t e.deposits with
      | none =>
        rw [show e.apply (Op.chargeback c0 t) = e.chargeback c0 t from rfl,
          chargeback_of_notFound e c0 t hd] at hs
        simp at hs
      | some d =>
        by_cases hm : d.client = c0
        · by_cases hdis : d.state = DepositState.Dispute
          · show (e.chargeback c0 t).1.lockedOf c = true
            rw [chargeback_of_disputed e c0 t d hd hm hdis]
            simp only [Engine.lockedOf, Engine.acct, acct_write]
            by_cases hc : c = c0
            · subst hc
              rw [if_pos rfl]
            · rw [if_neg hc]
              simpa [Engine.lockedOf, Engine.acct] using h
          · rw [show e.apply (Op.chargeback c0 t) = e.chargeback c0 t from rfl,
              chargeback_of_notDisputed e c0 t d hd hm hdis] at hs
            simp at hs
        · rw [show e.apply (Op.chargeback c0 t) = e.chargeback c0 t from rfl,
            chargeback_of_mismatch e c0 t d hd hm] at hs
          simp at hs

/-- Claim C7: once an account is locked no operation unlocks it, every
deposit or withdrawal for that client then fails with Locked, and the
error of a dispute, resolve or chargeback is never a Locked error. -/
theorem locked_permanent (e : Engine) (op : Op) (c : ClientId) (t : TransactionId) (a : ℚ) :
    (e.lockedOf c = true → (e.apply op).1.lockedOf c = true) ∧
    (e.lockedOf c = true →
        e.deposit c t a = (e.touch c, some (Error.Locked c)) ∧
        e.withdraw c t a = (e.touch c, some (Error.Locked c))) ∧
    (∀ err c1, (e.dispute c t).2 = some err → err ≠ Error.Locked c1) ∧
    (∀ err c1, (e.resolve c t).2 = some err → err ≠ Error.Locked c1) ∧
    (∀ err c1, (e.chargeback c t).2 = some err → err ≠ Error.Locked c1) := by
  refine ⟨lockedOf_apply e op c, fun hl => ?_, ?_, ?_, ?_⟩
  · have hl1 : (e.acct c).locked = true := hl
    exact ⟨deposit_of_locked e c t a hl1, withdraw_of_locked e c t a hl1⟩
  · intro err c1 herr
    cases hd : getKV t e.deposits with
    | none =>
      rw [dispute_of_notFound e c t hd] at herr
      simp only [Option.some.injEq] at herr
      subst herr
      simp
    | some d =>
      by_cases hm : d.client = c
      · by_cases hok : d.state = DepositState.Ok
        · rw [dispute_of_ok e c t d hd hm hok] at herr
          simp at herr
        · rw [dispute_of_notOk e c t d hd hm hok] at herr
          simp only [Option.some.injEq] at herr
          subst herr
          simp
      · rw [dispute_of_mismatch e c t d hd hm] at herr
        simp only [Option.some.injEq] at herr
        subst herr
        simp
  · intro err c1 herr
    cases hd : getKV t e.deposits with
    | none =>
      rw [resolve_of_notFound e c t hd] at herr
      simp only [Option.some.injEq] at herr
      subst herr
      simp
    | some d =>
      by_cases hm : d.client = c
      · by_cases hdis : d.state = DepositState.Dispute
        · rw [resolve_of_disputed e c t d hd hm hdis] at herr
          simp at herr
        · rw [resolve_of_notDisputed e c t d hd hm hdis] at herr
          simp only [Option.some.injEq] at herr
          subst herr
          simp
      · rw [resolve_of_mismatch e c t d hd hm] at herr
        simp only [Option.some.injEq] at herr
        subst herr
        simp
  · intro err c1 herr
    cases hd : getKV t e.deposits with
    | none =>
      rw [chargeback_of_notFound e c t hd] at herr
      simp only [Option.some.injEq] at herr
      subst herr
      simp
    | some d =>
      by_cases hm : d.client = c
      · by_cases hdis : d.state = DepositState.Dispute
        · rw [chargeback_of_disputed e c t d hd hm hdis] at herr
          simp at herr
        · rw [chargeback_of_notDisputed e c t d hd hm hdis] at herr
          simp only [Option.some.injEq] at herr
          subst herr
          simp
      · rw [chargeback_of_mismatch e c t d hd hm] at herr
        simp only [Option.some.injEq] at herr
        subst herr
        simp

theorem dispute_none_inv (e : Engine) (c : ClientId) (t : TransactionId)
    (h : (e.dispute c t).2 = none) :
    ∃ d, getKV t e.deposits = some d ∧ d.client = c ∧ d.state = DepositState.Ok := by
  cases hd : getKV t e.deposits with
  | none =>
    rw [dispute_of_notFound e c t hd] at h
    simp at h
  | some d =>
    by_cases hm : d.client = c
    · by_cases hok : d.state = DepositState.Ok
      · exact ⟨d, rfl, hm, hok⟩
      · rw [dispute_of_notOk e c t d hd hm hok] at h
        simp at h
    · rw [dispute_of_mismatch e c t d hd hm] at h
      simp at h

/-- Claim C8: a successful dispute followed by a resolve of the same
transaction by the same client succeeds, restores held to its value
before the dispute, leaves total unchanged, and returns the record to
its earlier state Ok; on a fresh engine, deposit of 10 then dispute then
resolve leaves held zero and total 10. -/
theorem dispute_resolve_roundtrip (e : Engine) (c : ClientId) (t : TransactionId)
    (h : (e.dispute c t).2 = none) :
    ((e.dispute c t).1.resolve c t).2 = none ∧
    ((e.dispute c t).1.resolve c t).1.heldOf c = e.heldOf c ∧
    ((e.dispute c t).1.resolve c t).1.totalOf c = e.totalOf c ∧
    getKV t ((e.dispute c t).1.resolve c t).1.deposits = getKV t e.deposits ∧
    (Engine.runOps [Op.deposit c 1 10, Op.dispute c 1, Op.resolve c 1]).heldOf c = 0 ∧
    (Engine.runOps [Op.deposit c 1 10, Op.dispute c 1, Op.resolve c 1]).totalOf c = 10 := by
  obtain ⟨d, hd, hm, hok⟩ := dispute_none_inv e c t h
  rw [dispute_of_ok e c t d hd hm hok]
  have hd1 : getKV t (setKV t { d with state := DepositState.Dispute } e.deposits) =
      some { d with state := DepositState.Dispute } := getKV_setKV_self t _ e.deposits
  rw [show ((⟨setKV c { e.acct c with held := (e.acct c).held + d.amount }
      (orDefault c e.accounts),
      setKV t { d with state := DepositState.Dispute } e.deposits⟩ : Engine), none).1 =
      (⟨setKV c { e.acct c with held := (e.acct c).held + d.amount } (orDefault c e.accounts),
      setKV t { d with state := DepositState.Dispute } e.deposits⟩ : Engine) from rfl]
  rw [resolve_of_disputed _ c t { d with state := DepositState.Dispute } hd1 hm rfl]
  refine ⟨rfl, ?_, ?_, ?_, ?_, ?_⟩
  · simp [Engine.heldOf, Engine.acct, acct_write]
  · simp [Engine.totalOf, Engine.acct, acct_write]
  · rw [getKV_setKV_self, hd]
    obtain ⟨dc, da, ds⟩ := d
    simp only at hok
    rw [hok]
  all_goals
    norm_num [Engine.runOps, Engine.apply, Engine.deposit, Engine.dispute, Engine.resolve,
      Engine.new, Engine.totalOf, Engine.heldOf, Engine.acct,
      orDefault, getKV, setKV, Account.default]

/-- Witness for C8: the dispute of a literal Ok deposit of 5 succeeds, and
the resolve after it succeeds again. -/
theorem dispute_resolve_roundtrip_witness :
    (((Engine.mk [(1, ⟨5, 0, false⟩)] [(4, ⟨1, 5, DepositState.Ok⟩)]).dispute 1 4).1.resolve
        1 4).2 = none :=
  (dispute_resolve_roundtrip (Engine.mk [(1, ⟨5, 0, false⟩)] [(4, ⟨1, 5, DepositState.Ok⟩)])
    1 4 rfl).1

theorem getKV_deposits_apply_frozen (e : Engine) (op : Op) (t : TransactionId) (d : Deposit)
    (h1 : getKV t e.deposits = some d) (h2 : d.state ≠ DepositState.Ok)
    (h3 : d.state ≠ DepositState.Dispute) :
    getKV t (e.apply op).1.deposits = some d := by
  cases op with
  | deposit c t1 a =>
    show getKV t (e.deposit c t1 a).1.deposits = some d
    by_cases hl : (e.acct c).locked = true
    · rw [deposit_of_locked e c t1 a hl]
      exact h1
    · rw [Bool.not_eq_true] at hl
      cases hd : getKV t1 e.deposits with
      | some d0 =>
        rw [deposit_of_duplicate e c t1 a d0 hl hd]
        exact h1
      | none =>
        have ht : t ≠ t1 := fun hteq => by rw [← hteq, h1] at hd; exact Option.noConfusion hd
        rw [deposit_of_fresh e c t1 a hl hd]
        show getKV t (setKV t1 _ e.deposits) = some d
        rw [getKV_setKV_ne t t1 _ e.deposits ht]
        exact h1
  | withdraw c t1 a =>
    show getKV t (e.withdraw c t1 a).1.deposits = some d
    rw [withdraw_deposits]
    exact h1
  | dispute c t1 =>
    show getKV t (e.dispute c t1).1.deposits = some d
    cases hd : getKV t1 e.deposits with
    | none =>
      rw [dispute_of_notFound e c t1 hd]
      exact h1
    | some d1 =>
      by_cases hm : d1.client = c
      · by_cases hok : d1.state = DepositState.Ok
        · have ht : t ≠ t1 := fun hteq => by
            rw [← hteq, h1] at hd
            rw [Option.some.injEq] at hd
            exact h2 (hd ▸ hok)
          rw [dispute_of_ok e c t1 d1 hd hm hok]
          show getKV t (setKV t1 _ e.deposits) = some d
          rw [getKV_setKV_ne t t1 _ e.deposits ht]
          exact h1
        · rw [dispute_of_notOk e c t1 d1 hd hm hok]
          exact h1
      · rw [dispute_of_mismatch e c t1 d1 hd hm]
        exact h1
  | resolve c t1 =>
    show getKV t (e.resolve c t1).1.deposits = some d
    cases hd : getKV t1 e.deposits with
    | none =>
      rw [resolve_of_notFound e c t1 hd]
      exact h1
    | some d1 =>
      by_cases hm : d1.client = c
      · by_cases hdis : d1.state = DepositState.Dispute
        · have ht : t ≠ t1 := fun hteq => by
            rw [← hteq, h1] at hd
            rw [Option.some.injEq] at hd
            exact h3 (hd ▸ hdis)
          rw [resolve_of_disputed e c t1 d1 hd hm hdis]
          show getKV t (setKV t1 _ e.deposits) = some d
          rw [getKV_setKV_ne t t1 _ e.deposits ht]
          exact h1
        · rw [resolve_of_notDisputed e c t1 d1 hd hm hdis]
          exact h1
      · rw [resolve_of_mismatch e c t1 d1 hd hm]
        exact h1
  | chargeback c t1 =>
    show getKV t (e.chargeback c t1).1.deposits = some d
    cases hd : getKV t1 e.deposits with
    | none =>
      rw [chargeback_of_notFound e c t1 hd]
      exact h1
    | some d1 =>
      by_cases hm : d1.client = c
      · by_cases hdis : d1.state = DepositState.Dispute
        · have ht : t ≠ t1 := fun hteq => by
            rw [← hteq, h1] at hd
            rw [Option.some.injEq] at hd
            exact h3 (hd ▸ hdis)
          rw [chargeback_of_disputed e c t1 d1 hd hm hdis]
          show getKV t (setKV t1 _ e.deposits) = some d
          rw [getKV_setKV_ne t t1 _ e.deposits ht]
          exact h1
        · rw [chargeback_of_notDisputed e c t1 d1 hd hm hdis]
          exact h1
      · rw [chargeback_of_mismatch e c t1 d1 hd hm]
        exact h1

/-- Counterexample to claim C9 as stated: after deposit, dispute and
chargeback of transaction 7 by client 1, the record is in the Chargeback
state, yet a dispute of transaction 7 by client 2 fails with
ClientMismatch, not with AlreadyDisputed. -/
theorem chargeback_terminal_counterexample :
    getKV 7 (Engine.runOps [Op.deposit 1 7 5, Op.dispute 1 7, Op.chargeback 1 7]).deposits =
      some ⟨1, 5, DepositState.Chargeback⟩ ∧
    ((Engine.runOps [Op.deposit 1 7 5, Op.dispute 1 7, Op.chargeback 1 7]).dispute 2 7).2 =
      some (Error.ClientMismatch 7 2 1) ∧
    ((Engine.runOps [Op.deposit 1 7 5, Op.dispute 1 7, Op.chargeback 1 7]).dispute 2 7).2 ≠
      some (Error.AlreadyDisputed 7) := by
  have h2 : ((Engine.runOps [Op.deposit 1 7 5, Op.dispute 1 7, Op.chargeback 1 7]).dispute
      2 7).2 = some (Error.ClientMismatch 7 2 1) := by
    norm_num [Engine.runOps, Engine.apply, Engine.deposit, Engine.dispute, Engine.chargeback,
      Engine.new, orDefault, getKV, setKV, Account.default]
  refine ⟨?_, h2, ?_⟩
  · norm_num [Engine.runOps, Engine.apply, Engine.deposit, Engine.dispute, Engine.chargeback,
      Engine.new, orDefault, getKV, setKV, Account.default]
  · rw [h2]
    exact fun hx => Error.noConfusion (Option.some.inj hx)

/-- Claim C9 as amended: once a deposit record is in the Chargeback state,
a dispute of it by the owning client fails with AlreadyDisputed and by any
other client with ClientMismatch; a resolve or chargeback of it fails with
NotDisputed for the owning client and with ClientMismatch for any other;
and no operation whatever changes the record again. -/
theorem chargeback_terminal (e : Engine) (c : ClientId) (t : TransactionId) (d : Deposit)
    (op : Op) (h1 : getKV t e.deposits = some d) (h2 : d.state = DepositState.Chargeback) :
    (d.client = c →
        (e.dispute c t).2 = some (Error.AlreadyDisputed t) ∧
        (e.resolve c t).2 = some (Error.NotDisputed t) ∧
        (e.chargeback c t).2 = some (Error.NotDisputed t)) ∧
    (d.client ≠ c →
        (e.dispute c t).2 = some (Error.ClientMismatch t c d.client) ∧
        (e.resolve c t).2 = some (Error.ClientMismatch t c d.client) ∧
        (e.chargeback c t).2 = some (Error.ClientMismatch t c d.client)) ∧
    getKV t (e.apply op).1.deposits = some d := by
  have hok : d.state ≠ DepositState.Ok := by rw [h2]; simp
  have hdis : d.state ≠ DepositState.Dispute := by rw [h2]; simp
  refine ⟨fun hm => ?_, fun hm => ?_, getKV_deposits_apply_frozen e op t d h1 hok hdis⟩
  · rw [dispute_of_notOk e c t d h1 hm hok, resolve_of_notDisputed e c t d h1 hm hdis,
      chargeback_of_notDisputed e c t d h1 hm hdis]
    exact ⟨rfl, rfl, rfl⟩
  · rw [dispute_of_mismatch e c t d h1 hm, resolve_of_mismatch e c t d h1 hm,
      chargeback_of_mismatch e c t d h1 hm]
    exact ⟨rfl, rfl, rfl⟩

/-- Witness for the amended C9: a literal engine with a Chargeback record
keeps the record unchanged across a withdraw. -/
theorem chargeback_terminal_witness :
    getKV 7 ((Engine.mk [(1, ⟨0, 0, true⟩)] [(7, ⟨1, 5, DepositState.Chargeback⟩)]).apply
        (Op.withdraw 1 2 3)).1.deposits = some ⟨1, 5, DepositState.Chargeback⟩ :=
  (chargeback_terminal (Engine.mk [(1, ⟨0, 0, true⟩)] [(7, ⟨1, 5, DepositState.Chargeback⟩)])
    1 7 ⟨1, 5, DepositState.Chargeback⟩ (Op.withdraw 1 2 3) rfl rfl).2.2

/-- Counterexample to claim C10 as stated: on the locked account left by a
chargeback, a withdrawal of the negative amount minus five has available
at least the amount and still fails, with Locked, rather than succeeding. -/
theorem unchecked_amount_counterexample :
    (-5 : ℚ) < 0 ∧
    (-5 : ℚ) ≤
      ((Engine.runOps [Op.deposit 1 1 10, Op.dispute 1 1, Op.chargeback 1 1]).acct 1).available ∧
    ((Engine.runOps [Op.deposit 1 1 10, Op.dispute 1 1, Op.chargeback 1 1]).withdraw
        1 2 (-5)).2 = some (Error.Locked 1) := by
  norm_num [Engine.runOps, Engine.apply, Engine.deposit, Engine.dispute, Engine.chargeback,
    Engine.withdraw, Engine.new, Engine.acct, orDefault, getKV, setKV, Account.default,
    Account.available]

/-- Claim C10 as amended: neither deposit nor withdraw validates the sign
or magnitude of the amount; on an account that is not locked, a deposit
with a fresh transaction id succeeds for any amount, negative or zero
included, adding the amount to total and so decreasing total for a
negative amount, and a withdrawal succeeds whenever the available balance
is at least the amount, which a negative amount makes possible even
beyond the balance, subtracting the amount and so increasing total for a
negative amount. -/
theorem unchecked_amount_sign (e : Engine) (c : ClientId) (t : TransactionId) (a : ℚ)
    (h1 : (e.acct c).locked = false) :
    (getKV t e.deposits = none →
        (e.deposit c t a).2 = none ∧
        (e.deposit c t a).1.totalOf c = e.totalOf c + a ∧
        (a < 0 → (e.deposit c t a).1.totalOf c < e.totalOf c)) ∧
    (a ≤ (e.acct c).available →
        (e.withdraw c t a).2 = none ∧
        (e.withdraw c t a).1.totalOf c = e.totalOf c - a ∧
        (a < 0 → e.totalOf c < (e.withdraw c t a).1.totalOf c)) := by
  constructor
  · intro hd
    rw [deposit_of_fresh e c t a h1 hd]
    refine ⟨rfl, ?_, ?_⟩
    · simp [Engine.totalOf, Engine.acct, acct_write]
    · intro hneg
      have h5 : e.totalOf c + a < e.totalOf c := by linarith
      simpa [Engine.totalOf, Engine.acct, acct_write] using h5
  · intro hv
    rw [withdraw_of_sufficient e c t a h1 (not_lt_of_le hv)]
    refine ⟨rfl, ?_, ?_⟩
    · simp [Engine.totalOf, Engine.acct, acct_write]
    · intro hneg
      have h5 : e.totalOf c < e.totalOf c - a := by linarith
      simpa [Engine.totalOf, Engine.acct, acct_write] using h5

/-- Witness for the amended C10: on a fresh engine a deposit of minus five
for client 1 succeeds and leaves total minus five. -/
theorem unchecked_amount_sign_witness :
    (Engine.new.deposit 1 1 (-5)).2 = none ∧
    (Engine.new.deposit 1 1 (-5)).1.totalOf 1 = Engine.new.totalOf 1 + (-5) ∧
    ((-5 : ℚ) < 0 → (Engine.new.deposit 1 1 (-5)).1.totalOf 1 < Engine.new.totalOf 1) :=
  (unchecked_amount_sign Engine.new 1 1 (-5) rfl).1 rfl

example :
    Engine.runOps [Op.deposit 1 1 10, Op.dispute 1 1, Op.chargeback 1 1] =
      { accounts := [(1, { total := 0, held := 0, locked := true })],
        deposits := [(1, { client := 1, amount := 10, state := DepositState.Chargeback })] } := by
  norm_num [Engine.runOps, Engine.apply, Engine.deposit, Engine.dispute, Engine.chargeback,
    Engine.new, orDefault, getKV, setKV, Account.default]

example :
    (Engine.runOps [Op.deposit 1 1 10, Op.dispute 1 1]).heldOf 1 = 10 := by
  norm_num [Engine.runOps, Engine.apply, Engine.deposit, Engine.dispute, Engine.new,
    Engine.heldOf, Engine.acct, orDefault, getKV, setKV, Account.default]
